import Mathlib

/-!
A shallow embedding of the stock-tracker application (src/app.py) and proofs
about its ledger, sell, undo and valuation logic.

Modelling conventions:
* Python decimals (prices, beta, PnL) are rationals.
* Share counts are integers, as in Python.
* Dates are opaque natural numbers.
* The session state (st.session_state.portfolio / st.session_state.history)
  is an explicit record threaded through the operations.
* Market quotes are a function from ticker to an optional price: none models
  a ticker absent from the current_prices dict of get_portfolio_data.
* The enrichment gateway (enrich_ticker_data) is a function from ticker to a
  (sector, beta) pair; a failed lookup is the pair (Unknown, 1).
* UI widgets bound the inputs that reach a handler: the sell number_input
  enforces 1 <= shares <= max_shares and the undo selectbox only offers
  indices of existing history rows.  These bounds are modelled as the guard
  of the corresponding operation, which returns an error (and hence leaves
  the state unchanged, since the state is only produced on success) when the
  input falls outside what the widget would allow.
-/

namespace StockTracker

/-- An open position, as created by the add-trade form of app.py: the dict
with keys Account, Ticker, Enter Date, Shares, Entry Price, Price Target,
Loss Limit, Beta, Sector. -/
structure Position where
  account : String
  ticker : String
  enterDate : Nat
  shares : Int
  entryPrice : ℚ
  priceTarget : ℚ
  lossLimit : ℚ
  beta : ℚ
  sector : String
deriving DecidableEq, Repr

/-- A history record, as created by the sell handler: a copy of the position
dict with Shares overwritten by the number of shares sold, plus Exit Price,
Exit Date and Realized PnL. -/
structure ClosedLot where
  account : String
  ticker : String
  enterDate : Nat
  shares : Int
  entryPrice : ℚ
  priceTarget : ℚ
  lossLimit : ℚ
  beta : ℚ
  sector : String
  exitPrice : ℚ
  exitDate : Nat
  realizedPnL : ℚ
deriving DecidableEq, Repr

/-- The session state: st.session_state.portfolio and st.session_state.history. -/
structure AppState where
  portfolio : List Position
  history : List ClosedLot
deriving DecidableEq, Repr

/-- Structured errors of the ledger operations (spec section 7 taxonomy). -/
inductive LedgerError where
  | InvalidQuantity
  | NotFound
deriving DecidableEq, Repr

/-- Alert status of a valuation row: the three strings returned by
check_alert in app.py. -/
inductive Status where
  | TargetHit
  | StopHit
  | Normal
deriving DecidableEq, Repr

/-- The history record built by the sell handler: item.copy() with Shares
set to the shares sold, plus Exit Price, Exit Date and Realized PnL, where
realized_pnl = (exit_price - item entry price) * sell_shares. -/
def mkClosedLot (p : Position) (k : Int) (xp : ℚ) (xd : Nat) : ClosedLot :=
  { account := p.account, ticker := p.ticker, enterDate := p.enterDate,
    shares := k, entryPrice := p.entryPrice, priceTarget := p.priceTarget,
    lossLimit := p.lossLimit, beta := p.beta, sector := p.sector,
    exitPrice := xp, exitDate := xd,
    realizedPnL := (xp - p.entryPrice) * (k : ℚ) }

/-- The loop body of the sell handler: scan the portfolio for the first item
whose Ticker matches, record a ClosedLot for it, and either pop the item
(full sale) or decrement its Shares (partial sale); then break.  Returns the
updated portfolio together with the lot created, if a match was found. -/
def sellCore : List Position → String → Int → ℚ → Nat → List Position × Option ClosedLot
  | [], _, _, _, _ => ([], none)
  | p :: rest, t, k, xp, xd =>
    if p.ticker = t then
      if k = p.shares then
        (rest, some (mkClosedLot p k xp xd))
      else
        ({ p with shares := p.shares - k } :: rest, some (mkClosedLot p k xp xd))
    else
      let res := sellCore rest t k xp xd
      (p :: res.1, res.2)

/-- The first portfolio entry with the given ticker: the row
df_display[df_display Ticker == sell_ticker].iloc[0] that the sell panel
reads its holding information from. -/
def firstMatch : List Position → String → Option Position
  | [], _ => none
  | p :: rest, t => if p.ticker = t then some p else firstMatch rest t

/-- max_shares of the sell panel: the Shares field of the first matching
portfolio entry, which the number_input uses as its upper bound. -/
def maxSellShares (s : AppState) (t : String) : Option Int :=
  (firstMatch s.portfolio t).map Position.shares

/-- The sell command.  The widget bounds (min_value 1, max_value max_shares)
are the guard: a request outside them is rejected as InvalidQuantity with no
state produced.  A ticker with no portfolio entry is not selectable at all,
modelled as NotFound.  On success the first matching entry is reduced or
removed and the lot is appended to the history. -/
def sell (s : AppState) (t : String) (k : Int) (xp : ℚ) (xd : Nat) :
    Except LedgerError AppState :=
  match firstMatch s.portfolio t with
  | none => .error .NotFound
  | some first =>
    if 0 < k ∧ k ≤ first.shares then
      let res := sellCore s.portfolio t k xp xd
      .ok { portfolio := res.1, history := s.history ++ res.2.toList }
    else
      .error .InvalidQuantity

/-- The merge loop of the undo handler: scan the portfolio for the first item
with the same Ticker and Account as the lot being reverted and add the lot
shares to it.  Returns the updated portfolio and the found flag. -/
def undoMerge : List Position → ClosedLot → List Position × Bool
  | [], _ => ([], false)
  | p :: rest, lot =>
    if p.ticker = lot.ticker ∧ p.account = lot.account then
      ({ p with shares := p.shares + lot.shares } :: rest, true)
    else
      let res := undoMerge rest lot
      (p :: res.1, res.2)

/-- The reverted position built by the undo handler when no live position
matches: item_to_revert.copy() with the Exit Price, Exit Date and
Realized PnL keys deleted. -/
def revertedPosition (lot : ClosedLot) : Position :=
  { account := lot.account, ticker := lot.ticker, enterDate := lot.enterDate,
    shares := lot.shares, entryPrice := lot.entryPrice,
    priceTarget := lot.priceTarget, lossLimit := lot.lossLimit,
    beta := lot.beta, sector := lot.sector }

/-- The undo command.  The selectbox only offers indices of existing history
rows, so an index with no history entry is rejected as NotFound with no
state produced.  On success the lot is merged into the first matching live
position, or appended as a recreated position when none matches, and the
history entry is removed. -/
def undo (s : AppState) (idx : Nat) : Except LedgerError AppState :=
  match s.history[idx]? with
  | none => .error .NotFound
  | some lot =>
    let res := undoMerge s.portfolio lot
    .ok { portfolio := if res.2 then res.1 else res.1 ++ [revertedPosition lot],
          history := s.history.eraseIdx idx }

/-- Last Price column of get_portfolio_data: the quoted price for the ticker
(a missing quote is filled with 0), replaced by the Entry Price when it is
not strictly positive. -/
def lastPrice (quotes : String → Option ℚ) (p : Position) : ℚ :=
  let raw := (quotes p.ticker).getD 0
  if raw ≤ 0 then p.entryPrice else raw

/-- Market Value column: Last Price times Shares. -/
def marketValue (quotes : String → Option ℚ) (p : Position) : ℚ :=
  lastPrice quotes p * (p.shares : ℚ)

/-- Unrealized PnL column: (Last Price - Entry Price) times Shares. -/
def unrealizedPnL (quotes : String → Option ℚ) (p : Position) : ℚ :=
  (lastPrice quotes p - p.entryPrice) * (p.shares : ℚ)

/-- Percent change column: (Last Price - Entry Price) / Entry Price. -/
def pctChange (quotes : String → Option ℚ) (p : Position) : ℚ :=
  (lastPrice quotes p - p.entryPrice) / p.entryPrice

/-- total_value: the sum of the Market Value column. -/
def totalValue (quotes : String → Option ℚ) (ps : List Position) : ℚ :=
  (ps.map (marketValue quotes)).sum

/-- total_pnl: the sum of the Unrealized PnL column. -/
def totalPnL (quotes : String → Option ℚ) (ps : List Position) : ℚ :=
  (ps.map (unrealizedPnL quotes)).sum

/-- Net Weight column: Market Value over total_value when the total is
positive, otherwise 0. -/
def netWeight (quotes : String → Option ℚ) (ps : List Position) (p : Position) : ℚ :=
  if totalValue quotes ps > 0 then marketValue quotes p / totalValue quotes ps else 0

/-- portfolio_beta: the sum of Beta times Net Weight over the rows. -/
def portfolioBeta (quotes : String → Option ℚ) (ps : List Position) : ℚ :=
  (ps.map (fun p => p.beta * netWeight quotes ps p)).sum

/-- check_alert of app.py: target first, then stop, else OK. -/
def check_alert (lp pt ll : ℚ) : Status :=
  if lp ≥ pt then .TargetHit
  else if lp ≤ ll then .StopHit
  else .Normal

/-- Status column: check_alert applied to the row. -/
def statusOf (quotes : String → Option ℚ) (p : Position) : Status :=
  check_alert (lastPrice quotes p) p.priceTarget p.lossLimit

/-- One row of the computed dataframe. -/
structure ValuationRow where
  position : Position
  lastPrice : ℚ
  marketValue : ℚ
  unrealizedPnL : ℚ
  pctChange : ℚ
  netWeight : ℚ
  rowStatus : Status
deriving DecidableEq, Repr

/-- Assemble the computed columns of one dataframe row. -/
def mkRow (quotes : String → Option ℚ) (ps : List Position) (p : Position) :
    ValuationRow :=
  { position := p,
    lastPrice := lastPrice quotes p,
    marketValue := marketValue quotes p,
    unrealizedPnL := unrealizedPnL quotes p,
    pctChange := pctChange quotes p,
    netWeight := netWeight quotes ps p,
    rowStatus := statusOf quotes p }

/-- The enrichment step of get_portfolio_data, one portfolio entry at a
time: when the Sector is Unknown, look the ticker up, store the returned
sector, and overwrite Beta only when the stored Beta is the default 1.0 and
the returned beta differs from 1.0. -/
def enrichPosition (enrich : String → String × ℚ) (p : Position) : Position :=
  if p.sector = "Unknown" then
    if p.beta = 1 ∧ (enrich p.ticker).2 ≠ 1 then
      { p with sector := (enrich p.ticker).1, beta := (enrich p.ticker).2 }
    else
      { p with sector := (enrich p.ticker).1 }
  else p

/-- The tuple returned by get_portfolio_data: the dataframe and the three
totals. -/
structure PortfolioView where
  rows : List ValuationRow
  totalValue : ℚ
  totalPnL : ℚ
  portfolioBeta : ℚ
deriving DecidableEq, Repr

/-- get_portfolio_data of app.py.  On an empty portfolio it returns the
empty view at once.  Otherwise it first runs the enrichment loop, which
writes sectors and betas back into st.session_state.portfolio, then computes
every column from the updated portfolio.  The function returns the view
together with the session state as it stands afterwards. -/
def get_portfolio_data (enrich : String → String × ℚ) (quotes : String → Option ℚ)
    (s : AppState) : PortfolioView × AppState :=
  if s.portfolio.isEmpty then (⟨[], 0, 0, 0⟩, s)
  else
    let enriched := s.portfolio.map (enrichPosition enrich)
    (⟨enriched.map (mkRow quotes enriched),
      totalValue quotes enriched,
      totalPnL quotes enriched,
      portfolioBeta quotes enriched⟩,
     { portfolio := enriched, history := s.history })

/-! ### Helper lemmas -/

/-- firstMatch finds the head of the matching suffix when everything before
it has a different ticker. -/
theorem firstMatch_split (pre post : List Position) (pos : Position) (t : String)
    (hpre : ∀ q ∈ pre, q.ticker ≠ t) (hpos : pos.ticker = t) :
    firstMatch (pre ++ pos :: post) t = some pos := by
  induction pre with
  | nil => simp [firstMatch, hpos]
  | cons q rest ih =>
    simp only [List.cons_append, firstMatch]
    rw [if_neg (hpre q (List.mem_cons_self q rest))]
    exact ih fun r hr => hpre r (List.mem_cons_of_mem q hr)

/-- The sell loop records the first matching position and edits only it. -/
theorem sellCore_split (pre post : List Position) (pos : Position) (t : String)
    (k : Int) (xp : ℚ) (xd : Nat)
    (hpre : ∀ q ∈ pre, q.ticker ≠ t) (hpos : pos.ticker = t) :
    sellCore (pre ++ pos :: post) t k xp xd =
      (pre ++ (if k = pos.shares then post
               else { pos with shares := pos.shares - k } :: post),
       some (mkClosedLot pos k xp xd)) := by
  induction pre with
  | nil =>
    simp only [List.nil_append, sellCore, if_pos hpos]
    by_cases hk : k = pos.shares
    · rw [if_pos hk, if_pos hk]
    · rw [if_neg hk, if_neg hk]
  | cons q rest ih =>
    simp only [List.cons_append, sellCore, List.append_eq]
    rw [if_neg (hpre q (List.mem_cons_self q rest)),
      ih fun r hr => hpre r (List.mem_cons_of_mem q hr)]

/-- Unfolding of sell when a matching position exists. -/
theorem sell_eq_of_firstMatch (s : AppState) (t : String) (k : Int) (xp : ℚ)
    (xd : Nat) (first : Position) (h : firstMatch s.portfolio t = some first) :
    sell s t k xp xd =
      if 0 < k ∧ k ≤ first.shares then
        .ok { portfolio := (sellCore s.portfolio t k xp xd).1,
              history := s.history ++ (sellCore s.portfolio t k xp xd).2.toList }
      else .error .InvalidQuantity := by
  unfold sell
  rw [h]

/-- A successful sell, phrased on a portfolio split at the first match. -/
theorem sell_split_ok (hist : List ClosedLot) (pre post : List Position)
    (pos : Position) (t : String) (k : Int) (xp : ℚ) (xd : Nat)
    (hpre : ∀ q ∈ pre, q.ticker ≠ t) (hpos : pos.ticker = t)
    (hk0 : 0 < k) (hkn : k ≤ pos.shares) :
    sell ⟨pre ++ pos :: post, hist⟩ t k xp xd =
      .ok ⟨pre ++ (if k = pos.shares then post
                   else { pos with shares := pos.shares - k } :: post),
           hist ++ [mkClosedLot pos k xp xd]⟩ := by
  rw [sell_eq_of_firstMatch ⟨pre ++ pos :: post, hist⟩ t k xp xd pos
      (firstMatch_split pre post pos t hpre hpos), if_pos ⟨hk0, hkn⟩]
  simp only [sellCore_split pre post pos t k xp xd hpre hpos, Option.toList_some]

/-- The undo merge loop adds the lot shares to the first matching position
and touches nothing else. -/
theorem undoMerge_split (pre post : List Position) (p : Position) (lot : ClosedLot)
    (hpre : ∀ q ∈ pre, ¬(q.ticker = lot.ticker ∧ q.account = lot.account))
    (hp : p.ticker = lot.ticker ∧ p.account = lot.account) :
    undoMerge (pre ++ p :: post) lot =
      (pre ++ { p with shares := p.shares + lot.shares } :: post, true) := by
  induction pre with
  | nil => simp only [List.nil_append, undoMerge, if_pos hp]
  | cons q rest ih =>
    simp only [List.cons_append, undoMerge, List.append_eq]
    rw [if_neg (hpre q (List.mem_cons_self q rest)),
      ih fun r hr => hpre r (List.mem_cons_of_mem q hr)]

/-- The undo merge loop leaves the portfolio unchanged when nothing matches. -/
theorem undoMerge_not_found (port : List Position) (lot : ClosedLot)
    (h : ∀ q ∈ port, ¬(q.ticker = lot.ticker ∧ q.account = lot.account)) :
    undoMerge port lot = (port, false) := by
  induction port with
  | nil => rfl
  | cons q rest ih =>
    simp only [undoMerge]
    rw [if_neg (h q (List.mem_cons_self q rest)),
      ih fun r hr => h r (List.mem_cons_of_mem q hr)]

/-- Dividing each summand by a constant divides the sum. -/
theorem sum_map_div (l : List Position) (f : Position → ℚ) (c : ℚ) :
    (l.map fun x => f x / c).sum = (l.map f).sum / c := by
  induction l with
  | nil => simp
  | cons x rest ih => simp [ih, add_div]

/-! ### Concrete fixtures used by witnesses and counterexamples -/

/-- A sample holding: 100 AAPL shares bought at 150. -/
def posAAPL : Position :=
  { account := "Main", ticker := "AAPL", enterDate := 0, shares := 100,
    entryPrice := 150, priceTarget := 200, lossLimit := 120, beta := 1,
    sector := "Technology" }

/-- A second, later holding of the same ticker: 30 AAPL shares at 140. -/
def posAAPL2 : Position := { posAAPL with shares := 30, entryPrice := 140 }

/-- The lot produced by selling 50 of the sample shares at 160. -/
def lotAAPL : ClosedLot := mkClosedLot posAAPL 50 160 1

/-- A sample holding whose sector has not been resolved yet. -/
def posUnknown : Position :=
  { account := "Main", ticker := "NVDA", enterDate := 0, shares := 10,
    entryPrice := 100, priceTarget := 150, lossLimit := 90, beta := 1,
    sector := "Unknown" }

/-- A session whose only position still has sector Unknown. -/
def stateUnknown : AppState := { portfolio := [posUnknown], history := [] }

/-- An enrichment gateway that resolves every ticker to Technology, beta 2. -/
def enrichTech : String → String × ℚ := fun _ => ("Technology", 2)

/-- A quote snapshot with no data for any ticker. -/
def noQuotes : String → Option ℚ := fun _ => none

/-- A quote snapshot pricing AAPL at 160 and nothing else. -/
def quoteAAPL : String → Option ℚ := fun t => if t = "AAPL" then some 160 else none

/-! ### Claim theorems -/

/-- C1: selling k shares with 0 < k <= n against a position holding n shares
reduces that position by exactly k (keeping it in the ledger when k < n and
removing it when k = n) and appends exactly one ClosedLot whose shares field
is k and whose realized PnL is (exit price - entry price) * k. -/
theorem sell_reduces_and_records (hist : List ClosedLot) (pre post : List Position)
    (pos : Position) (t : String) (k : Int) (xp : ℚ) (xd : Nat)
    (hpre : ∀ q ∈ pre, q.ticker ≠ t) (hpos : pos.ticker = t)
    (hk0 : 0 < k) (hkn : k ≤ pos.shares) :
    sell ⟨pre ++ pos :: post, hist⟩ t k xp xd =
      .ok ⟨pre ++ (if k = pos.shares then post
                   else { pos with shares := pos.shares - k } :: post),
           hist ++ [mkClosedLot pos k xp xd]⟩ ∧
    (mkClosedLot pos k xp xd).shares = k ∧
    (mkClosedLot pos k xp xd).realizedPnL = (xp - pos.entryPrice) * (k : ℚ) :=
  ⟨sell_split_ok hist pre post pos t k xp xd hpre hpos hk0 hkn, rfl, rfl⟩

/-- C1 witness: a partial sale of 50 out of 100 AAPL shares at 160. -/
theorem sell_reduces_and_records_witness :
    sell ⟨[posAAPL], []⟩ "AAPL" 50 160 1 =
      .ok ⟨[{ posAAPL with shares := 50 }], [mkClosedLot posAAPL 50 160 1]⟩ := by
  have h := (sell_reduces_and_records [] [] [] posAAPL "AAPL" 50 160 1
    (by simp) rfl (by decide) (by decide)).1
  exact h

/-- C2: a sell request that is non-positive or exceeds the shares held by
the target position is rejected as InvalidQuantity; no updated state is
produced, so the ledger and the history are unchanged. -/
theorem sell_invalid_quantity (s : AppState) (t : String) (k : Int) (xp : ℚ)
    (xd : Nat) (first : Position) (hfirst : firstMatch s.portfolio t = some first)
    (hbad : k ≤ 0 ∨ first.shares < k) :
    sell s t k xp xd = .error .InvalidQuantity := by
  rw [sell_eq_of_firstMatch s t k xp xd first hfirst, if_neg]
  rintro ⟨h1, h2⟩
  rcases hbad with h | h
  · exact absurd h1 (not_lt.mpr h)
  · exact absurd h2 (not_le.mpr h)

/-- C2 witness: selling 150 shares when only 100 are held is rejected. -/
theorem sell_invalid_quantity_witness :
    sell ⟨[posAAPL], []⟩ "AAPL" 150 160 1 = .error .InvalidQuantity :=
  sell_invalid_quantity ⟨[posAAPL], []⟩ "AAPL" 150 160 1 posAAPL (by decide)
    (Or.inr (by decide))

/-- C3: undoing a ClosedLot restores its shares to the ledger: when a live
position with the same account and ticker exists, that position gains the
lot shares with every other field unchanged; when none exists, a recreated
position is appended; in both cases the lot is removed from the history. -/
theorem undo_restores_and_removes (port : List Position) (hist : List ClosedLot)
    (idx : Nat) (lot : ClosedLot) (hidx : hist[idx]? = some lot) :
    (∀ pre p post, port = pre ++ p :: post →
      (∀ q ∈ pre, ¬(q.ticker = lot.ticker ∧ q.account = lot.account)) →
      p.ticker = lot.ticker → p.account = lot.account →
      undo ⟨port, hist⟩ idx =
        .ok ⟨pre ++ { p with shares := p.shares + lot.shares } :: post,
             hist.eraseIdx idx⟩) ∧
    ((∀ q ∈ port, ¬(q.ticker = lot.ticker ∧ q.account = lot.account)) →
      undo ⟨port, hist⟩ idx =
        .ok ⟨port ++ [revertedPosition lot], hist.eraseIdx idx⟩) := by
  constructor
  · rintro pre p post rfl hpre ht ha
    unfold undo
    rw [show (⟨pre ++ p :: post, hist⟩ : AppState).history[idx]? = some lot from hidx]
    simp only [undoMerge_split pre post p lot hpre ⟨ht, ha⟩, if_true]
  · intro h
    unfold undo
    rw [show (⟨port, hist⟩ : AppState).history[idx]? = some lot from hidx]
    simp only [undoMerge_not_found port lot h, Bool.false_eq_true, if_false]

/-- C3 witness: undoing the lot from a 50-share AAPL sale merges the shares
back into the remaining 50-share position, and the history empties. -/
theorem undo_restores_and_removes_witness :
    undo ⟨[{ posAAPL with shares := 50 }], [lotAAPL]⟩ 0 =
      .ok ⟨[{ posAAPL with shares := 100 }], []⟩ := by
  have h := (undo_restores_and_removes [{ posAAPL with shares := 50 }] [lotAAPL]
      0 lotAAPL rfl).1 [] { posAAPL with shares := 50 } [] rfl (by simp) rfl rfl
  exact h

/-- C4: undo of an index that names no existing ClosedLot is rejected as
NotFound; no updated state is produced, so the ledger and the history are
unchanged, and since a successful undo removes its lot, no lot can be
reversed twice. -/
theorem undo_not_found (s : AppState) (idx : Nat)
    (h : s.history[idx]? = none) : undo s idx = .error .NotFound := by
  unfold undo
  rw [h]

/-- C4 witness: undoing against an empty history is rejected. -/
theorem undo_not_found_witness :
    undo ⟨[posAAPL], []⟩ 0 = .error .NotFound :=
  undo_not_found ⟨[posAAPL], []⟩ 0 rfl

/-- C5: the Last Price of a position is the quoted price when present and
strictly positive, and the Entry Price otherwise (absent, zero or negative
quote), in which case the Unrealized PnL is 0; and every per-position column
depends only on the quote for that position's own ticker, so a failed quote
for one ticker cannot change the valuation of another. -/
theorem lastPrice_fallback_policy (quotes quotes2 : String → Option ℚ)
    (p : Position) :
    (∀ q : ℚ, quotes p.ticker = some q → 0 < q → lastPrice quotes p = q) ∧
    ((quotes p.ticker = none ∨ ∃ q : ℚ, quotes p.ticker = some q ∧ q ≤ 0) →
      lastPrice quotes p = p.entryPrice ∧ unrealizedPnL quotes p = 0) ∧
    (quotes p.ticker = quotes2 p.ticker →
      lastPrice quotes p = lastPrice quotes2 p ∧
      marketValue quotes p = marketValue quotes2 p ∧
      unrealizedPnL quotes p = unrealizedPnL quotes2 p ∧
      pctChange quotes p = pctChange quotes2 p ∧
      statusOf quotes p = statusOf quotes2 p) := by
  refine ⟨?_, ?_, ?_⟩
  · intro q hq hpos
    simp [lastPrice, hq, not_le.mpr hpos]
  · rintro (h | ⟨q, hq, hle⟩)
    · refine ⟨by simp [lastPrice, h], ?_⟩
      simp [unrealizedPnL, lastPrice, h]
    · refine ⟨by simp [lastPrice, hq, hle], ?_⟩
      simp [unrealizedPnL, lastPrice, hq, hle]
  · intro h
    have hl : lastPrice quotes p = lastPrice quotes2 p := by
      simp [lastPrice, h]
    exact ⟨hl, by simp [marketValue, hl], by simp [unrealizedPnL, hl],
      by simp [pctChange, hl], by simp [statusOf, hl]⟩

/-- C5 witness: AAPL quoted at 160 is priced at 160; with no quote the
price falls back to the 150 entry price and the unrealized PnL is 0. -/
theorem lastPrice_fallback_policy_witness :
    lastPrice quoteAAPL posAAPL = 160 ∧
    lastPrice noQuotes posAAPL = posAAPL.entryPrice ∧
    unrealizedPnL noQuotes posAAPL = 0 :=
  ⟨(lastPrice_fallback_policy quoteAAPL quoteAAPL posAAPL).1 160 (by decide)
      (by decide),
   ((lastPrice_fallback_policy noQuotes noQuotes posAAPL).2.1 (Or.inl rfl)).1,
   ((lastPrice_fallback_policy noQuotes noQuotes posAAPL).2.1 (Or.inl rfl)).2⟩

/-- C6: status classification checks the target first: at or above the
price target the status is TargetHit regardless of the stop; otherwise at
or below the loss limit it is StopHit; otherwise Normal.  Exact equality
with either bound triggers the corresponding status. -/
theorem check_alert_precedence (lp pt ll : ℚ) :
    (lp ≥ pt → check_alert lp pt ll = .TargetHit) ∧
    (lp < pt → lp ≤ ll → check_alert lp pt ll = .StopHit) ∧
    (lp < pt → ll < lp → check_alert lp pt ll = .Normal) := by
  refine ⟨fun h => by simp [check_alert, h], fun h1 h2 => ?_, fun h1 h2 => ?_⟩
  · simp [check_alert, not_le.mpr h1, h2]
  · simp [check_alert, not_le.mpr h1, not_le.mpr h2]

/-- C6 witness: boundary and interior cases of the classification,
including a price equal to both the target and the stop. -/
theorem check_alert_precedence_witness :
    check_alert 200 200 120 = Status.TargetHit ∧
    check_alert 120 120 120 = Status.TargetHit ∧
    check_alert 120 200 120 = Status.StopHit ∧
    check_alert 150 200 120 = Status.Normal :=
  ⟨(check_alert_precedence 200 200 120).1 (by decide),
   (check_alert_precedence 120 120 120).1 (by decide),
   (check_alert_precedence 120 200 120).2.1 (by decide) (by decide),
   (check_alert_precedence 150 200 120).2.2 (by decide) (by decide)⟩

/-- C7: each row's Net Weight is Market Value over total value when the
total is positive and 0 otherwise; hence the Net Weights sum to 1 whenever
the total value is positive, and every row contributes 0 when it is not. -/
theorem netWeight_partition (quotes : String → Option ℚ) (ps : List Position) :
    (∀ p ∈ ps, netWeight quotes ps p =
      if totalValue quotes ps > 0 then
        marketValue quotes p / totalValue quotes ps
      else 0) ∧
    (totalValue quotes ps > 0 → (ps.map (netWeight quotes ps)).sum = 1) ∧
    (¬ totalValue quotes ps > 0 → ∀ p ∈ ps, netWeight quotes ps p = 0) := by
  refine ⟨fun p _ => rfl, fun h => ?_, fun h p _ => by simp [netWeight, h]⟩
  have hmap : ps.map (netWeight quotes ps) =
      ps.map fun p => marketValue quotes p / totalValue quotes ps :=
    List.map_congr_left fun p _ => by simp [netWeight, h]
  rw [hmap, sum_map_div,
    show (ps.map (marketValue quotes)).sum = totalValue quotes ps from rfl]
  exact div_self (ne_of_gt h)

/-- C7 witness: a single AAPL position quoted at 160 has total value 16000
and its net weight sums to 1. -/
theorem netWeight_partition_witness :
    totalValue quoteAAPL [posAAPL] > 0 ∧
    ([posAAPL].map (netWeight quoteAAPL [posAAPL])).sum = 1 := by
  have htot : totalValue quoteAAPL [posAAPL] = 16000 := by
    norm_num [totalValue, marketValue, lastPrice, quoteAAPL, posAAPL]
  refine ⟨by rw [htot]; norm_num, ?_⟩
  exact (netWeight_partition quoteAAPL [posAAPL]).2.1 (by rw [htot]; norm_num)

/-- What a valuation pass may not change about a position: every stored
field except sector and beta, and the whole position once its sector is
resolved. -/
def sameCoreFields (p p2 : Position) : Prop :=
  p2.account = p.account ∧ p2.ticker = p.ticker ∧ p2.enterDate = p.enterDate ∧
  p2.shares = p.shares ∧ p2.entryPrice = p.entryPrice ∧
  p2.priceTarget = p.priceTarget ∧ p2.lossLimit = p.lossLimit ∧
  (p.sector ≠ "Unknown" → p2 = p)

/-- The enrichment step only rewrites sector and beta, and only on
positions whose sector is Unknown. -/
theorem enrichPosition_frame (enrich : String → String × ℚ) (p : Position) :
    sameCoreFields p (enrichPosition enrich p) := by
  unfold sameCoreFields enrichPosition
  by_cases hs : p.sector = "Unknown"
  · rw [if_pos hs]
    by_cases hb : p.beta = 1 ∧ (enrich p.ticker).2 ≠ 1
    · rw [if_pos hb]
      exact ⟨rfl, rfl, rfl, rfl, rfl, rfl, rfl, fun hc => absurd hs hc⟩
    · rw [if_neg hb]
      exact ⟨rfl, rfl, rfl, rfl, rfl, rfl, rfl, fun hc => absurd hs hc⟩
  · rw [if_neg hs]
    exact ⟨rfl, rfl, rfl, rfl, rfl, rfl, rfl, fun _ => rfl⟩

/-- Pointwise frame condition lifted to the whole portfolio. -/
theorem forall₂_sameCore (enrich : String → String × ℚ) (l : List Position) :
    List.Forall₂ sameCoreFields l (l.map (enrichPosition enrich)) := by
  induction l with
  | nil => exact List.Forall₂.nil
  | cons p rest ih => exact List.Forall₂.cons (enrichPosition_frame enrich p) ih

/-- C8 counterexample: get_portfolio_data is not side-effect-free on the
ledger.  On a session holding one NVDA position with sector Unknown and
beta 1, with an enrichment gateway answering (Technology, 2), the pass
writes sector Technology and beta 2 back into the stored position. -/
theorem get_portfolio_data_mutates_ledger :
    (get_portfolio_data enrichTech noQuotes stateUnknown).2.portfolio =
      [{ posUnknown with sector := "Technology", beta := 2 }] ∧
    (get_portfolio_data enrichTech noQuotes stateUnknown).2.portfolio ≠
      stateUnknown.portfolio := by
  constructor
  · decide
  · decide

/-- C8 amended: a valuation pass never touches the history and never
changes any position's account, ticker, entry date, shares, entry price,
price target or loss limit; a position whose sector is already resolved
(not Unknown) is left entirely unchanged, while sector and beta of an
unresolved position may be rewritten by the enrichment step. -/
theorem get_portfolio_data_frame (enrich : String → String × ℚ)
    (quotes : String → Option ℚ) (s : AppState) :
    (get_portfolio_data enrich quotes s).2.history = s.history ∧
    List.Forall₂ sameCoreFields s.portfolio
      (get_portfolio_data enrich quotes s).2.portfolio := by
  obtain ⟨port, hist⟩ := s
  cases port with
  | nil => exact ⟨rfl, List.Forall₂.nil⟩
  | cons p rest => exact ⟨rfl, forall₂_sameCore enrich (p :: rest)⟩

/-- C9: the sell panel identifies its target by ticker alone: with several
live positions on the same ticker, the displayed bound max_shares is the
share count of the first-listed one, and a sale of any quantity within that
bound debits exactly that first position, leaving the later ones (in post)
untouched. -/
theorem sell_targets_first_listed (hist : List ClosedLot)
    (pre post : List Position) (pos : Position) (t : String) (xp : ℚ) (xd : Nat)
    (hpre : ∀ q ∈ pre, q.ticker ≠ t) (hpos : pos.ticker = t) :
    maxSellShares ⟨pre ++ pos :: post, hist⟩ t = some pos.shares ∧
    ∀ k : Int, 0 < k → k ≤ pos.shares →
      sell ⟨pre ++ pos :: post, hist⟩ t k xp xd =
        .ok ⟨pre ++ (if k = pos.shares then post
                     else { pos with shares := pos.shares - k } :: post),
             hist ++ [mkClosedLot pos k xp xd]⟩ := by
  refine ⟨?_, fun k hk0 hkn =>
    sell_split_ok hist pre post pos t k xp xd hpre hpos hk0 hkn⟩
  unfold maxSellShares
  rw [show (⟨pre ++ pos :: post, hist⟩ : AppState).portfolio =
    pre ++ pos :: post from rfl, firstMatch_split pre post pos t hpre hpos]
  rfl

/-- C9 witness: two AAPL positions of 100 and 30 shares; the bound is 100
and selling 100 shares (more than the second position holds) removes the
first position and leaves the second untouched. -/
theorem sell_targets_first_listed_witness :
    maxSellShares ⟨[posAAPL, posAAPL2], []⟩ "AAPL" = some 100 ∧
    sell ⟨[posAAPL, posAAPL2], []⟩ "AAPL" 100 160 1 =
      .ok ⟨[posAAPL2], [mkClosedLot posAAPL 100 160 1]⟩ := by
  have h := sell_targets_first_listed [] [] [posAAPL2] posAAPL "AAPL" 160 1
    (by simp) rfl
  exact ⟨h.1, h.2 100 (by decide) (by decide)⟩

/-- C10: when undo recreates a position from a ClosedLot built by selling
k shares of position p, the recreated position is exactly p with its share
count replaced by k: account, ticker, entry date, entry price, price
target, loss limit, beta and sector all come from the snapshot, the three
exit fields are dropped, and no field falls back to a default. -/
theorem undo_recreates_full_snapshot (p : Position) (k : Int) (xp : ℚ)
    (xd : Nat) :
    revertedPosition (mkClosedLot p k xp xd) = { p with shares := k } := rfl

end StockTracker
